import Mathlib

/-!
Verification of the Archey installer's installation orchestrator
(`InstallWorker` and its helpers) against its specification.

The C++ source is shallowly embedded: pure computations become Lean
functions, stateful stages become functions producing explicit traces of
actions/events, `QString` values become `String` (character sequences),
C++ `double` values coming from parsed decimal text become `ℚ`, and
exceptions become `Except` values.
-/

namespace Archey

/-! ## String helpers

Character-list level models of the `QString` operations used by the
installer (`startsWith`, `contains`, `right`, `trimmed`).  They are
written by structural recursion so that concrete instances evaluate
inside the kernel. -/

/-- Model of sequence-prefix testing on character lists. -/
def isPrefixL : List Char → List Char → Bool
  | [], _ => true
  | _ :: _, [] => false
  | a :: as, b :: bs => a == b && isPrefixL as bs

/-- Model of substring (infix) testing on character lists. -/
def isInfixOfL : List Char → List Char → Bool
  | n, [] => isPrefixL n []
  | n, b :: bs => isPrefixL n (b :: bs) || isInfixOfL n bs

/-- Model of `QString::startsWith`. -/
def strStartsWith (s pre : String) : Bool := isPrefixL pre.data s.data

/-- Model of `QString::contains` (substring search). -/
def strContains (s sub : String) : Bool := isInfixOfL sub.data s.data

/-- Model of `QString::right(n)`: the last `n` characters (whole string when
shorter than `n`). -/
def strRight (s : String) (n : Nat) : String :=
  ⟨s.data.drop (s.data.length - n)⟩

/-- Model of `QString::trimmed`: strip leading and trailing whitespace. -/
def trimChars (s : String) : String :=
  ⟨((s.data.dropWhile Char.isWhitespace).reverse.dropWhile Char.isWhitespace).reverse⟩

/-- Characterization of `isPrefixL` as an existential suffix decomposition. -/
theorem isPrefixL_iff (l : List Char) : ∀ m, isPrefixL l m = true ↔ ∃ t, m = l ++ t := by
  induction l with
  | nil => intro m; simp [isPrefixL]
  | cons a as ih =>
    intro m
    cases m with
    | nil => simp [isPrefixL]
    | cons b bs =>
      simp only [isPrefixL, Bool.and_eq_true, beq_iff_eq, ih bs]
      constructor
      · rintro ⟨rfl, t, rfl⟩; exact ⟨t, rfl⟩
      · rintro ⟨t, h⟩
        injection h with h1 h2
        exact ⟨h1.symm, t, h2⟩

/-- A list is a prefix of itself followed by anything. -/
theorem isPrefixL_append_self (l t : List Char) : isPrefixL l (l ++ t) = true :=
  (isPrefixL_iff l (l ++ t)).mpr ⟨t, rfl⟩

/-- Prefix testing is preserved by prepending a common prefix. -/
theorem isPrefixL_append_left (p d c : List Char) (h : isPrefixL d c = true) :
    isPrefixL (p ++ d) (p ++ c) = true := by
  obtain ⟨t, rfl⟩ := (isPrefixL_iff d c).mp h
  have := isPrefixL_append_self (p ++ d) t
  simpa [List.append_assoc] using this

/-! ## ProcessRunner (`InstallWorker::_run`) — claim C5

The source starts the process, merges stdout/stderr, then when
`check` is set and the process exited abnormally or with nonzero status
it throws a `runtime_error` carrying the exit code, the logged command
line `prog + " " + args.join(' ')` and `out.right(700)`. -/

/-- Outcome of the external process as observed through `QProcess`:
whether it exited normally, its exit code, and the merged output. -/
structure ProcOutcome where
  normalExit : Bool
  exitCode : Int
  output : String
deriving DecidableEq

/-- The payload of the `CommandFailed` error thrown by `_run`. -/
structure CmdFailure where
  exitCode : Int
  cmdLine : String
  outputTail : String
deriving DecidableEq

/-- Model of the success-checking policy of `InstallWorker::_run`:
given the process outcome, either return normally or fail with the
`CommandFailed` payload built exactly as in the source. -/
def runCheck (prog : String) (args : List String) (check : Bool) (res : ProcOutcome) :
    Except CmdFailure Unit :=
  if check ∧ (res.normalExit = false ∨ res.exitCode ≠ 0) then
    .error ⟨res.exitCode, prog ++ " " ++ String.intercalate " " args, strRight res.output 700⟩
  else .ok ()

/-- C5: with `checkSuccess` true, an abnormal or nonzero exit raises
`CommandFailed` carrying the exact exit code, the invoked command line and
the last at-most-700 characters of merged output; with `checkSuccess`
false the same invocation returns normally. -/
theorem processRunner_failure_spec (prog : String) (args : List String) (res : ProcOutcome)
    (h : res.normalExit = false ∨ res.exitCode ≠ 0) :
    runCheck prog args true res =
      .error ⟨res.exitCode, prog ++ " " ++ String.intercalate " " args,
        strRight res.output 700⟩ ∧
    (strRight res.output 700).length ≤ 700 ∧
    runCheck prog args false res = .ok () := by
  refine ⟨?_, ?_, ?_⟩
  · simp [runCheck, h]
  · show (String.mk _).length ≤ 700
    simp only [String.length, List.length_drop]
    omega
  · simp [runCheck]

/-- Witness for C5 at a concrete failing invocation. -/
theorem processRunner_failure_spec_witness :
    runCheck "mkfs.ext4" ["-F", "/dev/sda2"] true ⟨true, 1, "boom"⟩ =
      .error ⟨1, "mkfs.ext4" ++ " " ++ String.intercalate " " ["-F", "/dev/sda2"],
        strRight "boom" 700⟩ ∧
    (strRight "boom" 700).length ≤ 700 ∧
    runCheck "mkfs.ext4" ["-F", "/dev/sda2"] false ⟨true, 1, "boom"⟩ = .ok () :=
  processRunner_failure_spec "mkfs.ext4" ["-F", "/dev/sda2"] ⟨true, 1, "boom"⟩
    (Or.inr (by decide))

/-! ## Format stage (`InstallWorker::doFormat`) — claim C2

The source always runs `mkfs.ext4 -F root`, and runs `mkfs.fat -F32 efi`
only when the mode is `"wipe"`. -/

/-- An external command invocation: program, arguments, and whether a
failure aborts the pipeline (the `check` argument of `_run`). -/
structure Cmd where
  prog : String
  args : List String
  check : Bool
deriving DecidableEq

/-- Model of `InstallWorker::doFormat`: the list of commands it issues,
in order. -/
def doFormatCmds (efi root mode : String) : List Cmd :=
  ⟨"mkfs.ext4", ["-F", root], true⟩ ::
    (if mode = "wipe" then [⟨"mkfs.fat", ["-F32", efi], true⟩] else [])

/-- C2: the format stage creates ext4 on the root device in every mode,
creates FAT32 on the EFI device iff the mode is `wipe`, and in the other
two modes issues only the ext4-on-root command, so no command's device
argument (the last argument of an `mkfs` invocation) is the EFI device. -/
theorem format_stage_spec (efi root mode : String) :
    (⟨"mkfs.ext4", ["-F", root], true⟩ : Cmd) ∈ doFormatCmds efi root mode ∧
    ((⟨"mkfs.fat", ["-F32", efi], true⟩ : Cmd) ∈ doFormatCmds efi root mode ↔ mode = "wipe") ∧
    (mode ≠ "wipe" → doFormatCmds efi root mode = [⟨"mkfs.ext4", ["-F", root], true⟩]) ∧
    (mode ≠ "wipe" → efi ≠ root →
      ∀ c ∈ doFormatCmds efi root mode, c.args.getLast? ≠ some efi) := by
  refine ⟨?_, ?_, ?_, ?_⟩
  · simp [doFormatCmds]
  · by_cases hm : mode = "wipe" <;> simp [doFormatCmds, hm]
  · intro hm; simp [doFormatCmds, hm]
  · intro hm hne c hc
    simp only [doFormatCmds, hm, if_neg, List.mem_singleton, if_false] at hc
    subst hc
    simp only [List.getLast?]
    intro h
    exact hne (by injection h with h; exact h.symm)

/-- Witness for C2 in `freespace` mode with distinct devices. -/
theorem format_stage_spec_witness :
    doFormatCmds "/dev/sda1" "/dev/sda2" "freespace" =
      [⟨"mkfs.ext4", ["-F", "/dev/sda2"], true⟩] :=
  (format_stage_spec "/dev/sda1" "/dev/sda2" "freespace").2.2.1 (by decide)

/-! ## Pipeline progress trace (`InstallWorker::run`) — claim C1

`run` emits a progress event before each stage, calls the stage (which
may throw), and on any exception emits a single `failed` event; after the
final progress at 100 it emits `succeeded`.  The desktop-environment
stage at 88 runs only when a desktop environment with a non-empty
package list was selected.  Log lines are not modelled here; only the
progress/terminal event channel the claim is about. -/

/-- Events delivered to the observer: progress with message and percent,
or one of the two terminal signals. -/
inductive Event where
  | progress (msg : String) (pct : Nat)
  | succeeded
  | failed (msg : String)
deriving DecidableEq

/-- Outcome environment of one pipeline run: for each stage, whether it
returned normally or threw (with the exception message), plus whether a
desktop environment with a non-empty package list was selected.  The
cleanup stage only issues non-checking commands and cannot throw. -/
structure PipeEnv where
  partitionOk : Except String Unit
  formatOk : Except String Unit
  mountOk : Except String Unit
  pacstrapOk : Except String Unit
  fstabOk : Except String Unit
  configureOk : Except String Unit
  grubOk : Except String Unit
  hasDE : Bool
  deOk : Except String Unit

/-- One stage boundary: if the stage threw, the catch block emits a
single `failed` event and the run ends; otherwise the rest of the run
follows. -/
def stageStep (e : Except String Unit) (rest : List Event) : List Event :=
  match e with
  | .error m => [.failed m]
  | .ok _ => rest

/-- The tail of every successful run: cleanup progress, the final 100%
progress, and the `succeeded` signal. -/
def tailTrace : List Event :=
  [.progress "Cleaning up..." 97, .progress "Installation complete!" 100, .succeeded]

/-- Model of `InstallWorker::run`: the event trace of one pipeline run,
as emitted in source order. -/
def runTrace (env : PipeEnv) : List Event :=
  .progress "Partitioning disk..." 5 ::
  stageStep env.partitionOk (
  .progress "Formatting partitions..." 15 ::
  stageStep env.formatOk (
  .progress "Mounting partitions..." 20 ::
  stageStep env.mountOk (
  .progress "Installing base system (this may take a while)..." 25 ::
  stageStep env.pacstrapOk (
  .progress "Generating fstab..." 60 ::
  stageStep env.fstabOk (
  .progress "Configuring system..." 65 ::
  stageStep env.configureOk (
  .progress "Installing bootloader..." 85 ::
  stageStep env.grubOk (
  if env.hasDE then
    .progress "Installing desktop environment..." 88 :: stageStep env.deOk tailTrace
  else tailTrace)))))))

/-- The percentages of the progress events of a trace, in emission order. -/
def pcts : List Event → List Nat
  | [] => []
  | Event.progress _ p :: t => p :: pcts t
  | Event.succeeded :: t => pcts t
  | Event.failed _ :: t => pcts t

/-- Whether an event is terminal (`succeeded` or `failed`). -/
def isTerminal : Event → Bool
  | Event.progress _ _ => false
  | Event.succeeded => true
  | Event.failed _ => true

/-- The fixed stage start percentages, in stage order. -/
def stagePcts : List Nat := [5, 15, 20, 25, 60, 65, 85, 88, 97, 100]

/-- A trace ends in exactly one terminal event, with no terminal event
before it (hence nothing at all after it). -/
def Terminated (t : List Event) : Prop :=
  ∃ pre term, t = pre ++ [term] ∧ isTerminal term = true ∧ ∀ e ∈ pre, isTerminal e = false

/-- Invariant carried through the stage chain: the progress percentages
are a sublist of `allowed`, they are non-decreasing even when preceded
by the lower bound `lb`, and the trace is properly terminated. -/
def TraceFrom (lb : Nat) (allowed : List Nat) (t : List Event) : Prop :=
  (pcts t).Sublist allowed ∧ List.Chain' (· ≤ ·) (lb :: pcts t) ∧ Terminated t

theorem traceFrom_failed (lb : Nat) (allowed : List Nat) (m : String) :
    TraceFrom lb allowed [Event.failed m] := by
  refine ⟨by simp [pcts], by simp [pcts], [], Event.failed m, rfl, rfl, by simp⟩

theorem traceFrom_succeeded (lb : Nat) (allowed : List Nat) :
    TraceFrom lb allowed [Event.succeeded] := by
  refine ⟨by simp [pcts], by simp [pcts], [], Event.succeeded, rfl, rfl, by simp⟩

theorem traceFrom_weaken_allowed (lb x : Nat) (allowed : List Nat) (t : List Event)
    (h : TraceFrom lb allowed t) : TraceFrom lb (x :: allowed) t :=
  ⟨h.1.cons x, h.2.1, h.2.2⟩

theorem traceFrom_stageStep (lb : Nat) (allowed : List Nat) (e : Except String Unit)
    (t : List Event) (h : TraceFrom lb allowed t) :
    TraceFrom lb allowed (stageStep e t) := by
  cases e with
  | error m => exact traceFrom_failed lb allowed m
  | ok u => exact h

theorem traceFrom_progress (lb p : Nat) (allowed : List Nat) (m : String) (t : List Event)
    (hlb : lb ≤ p) (h : TraceFrom p allowed t) :
    TraceFrom lb (p :: allowed) (Event.progress m p :: t) := by
  obtain ⟨hsub, hchain, pre, term, hdec, hterm, hpre⟩ := h
  refine ⟨?_, ?_, Event.progress m p :: pre, term, by simp [hdec], hterm, ?_⟩
  · simpa [pcts] using hsub.cons₂ p
  · simpa [pcts, List.chain'_cons] using ⟨hlb, hchain⟩
  · intro e he
    rcases List.mem_cons.mp he with h1 | h2
    · subst h1; rfl
    · exact hpre e h2

/-- The all-stages-succeed environment with a desktop environment
selected: the run that emits every stage percentage. -/
def allOkDE : PipeEnv :=
  ⟨.ok (), .ok (), .ok (), .ok (), .ok (), .ok (), .ok (), true, .ok ()⟩

/-- C1: every pipeline run's progress percentages form a sublist of the
fixed stage-percentage table (so every stage is announced at exactly its
fixed start percentage, in stage order), the emitted percentages are
monotonically non-decreasing, the run ends in exactly one terminal event
with nothing after it (in particular no progress after `succeeded`), and
the full successful run with a desktop environment emits exactly the
fixed percentages. -/
theorem pipeline_progress_spec (env : PipeEnv) :
    (pcts (runTrace env)).Sublist stagePcts ∧
    List.Chain' (· ≤ ·) (pcts (runTrace env)) ∧
    Terminated (runTrace env) ∧
    pcts (runTrace allOkDE) = stagePcts := by
  have htail : ∀ lb, lb ≤ 97 → TraceFrom lb [97, 100] tailTrace := by
    intro lb hlb
    exact traceFrom_progress lb 97 [100] _ _ hlb
      (traceFrom_progress 97 100 [] _ _ (by norm_num)
        (traceFrom_succeeded 100 []))
  have hde : TraceFrom 85 [88, 97, 100]
      (if env.hasDE then
        Event.progress "Installing desktop environment..." 88 :: stageStep env.deOk tailTrace
      else tailTrace) := by
    cases hDE : env.hasDE with
    | true =>
      exact traceFrom_progress 85 88 [97, 100] _ _ (by norm_num)
        (traceFrom_stageStep 88 [97, 100] env.deOk _ (htail 88 (by norm_num)))
    | false =>
      exact traceFrom_weaken_allowed 85 88 [97, 100] _ (htail 85 (by norm_num))
  have hmain : TraceFrom 0 stagePcts (runTrace env) := by
    unfold runTrace stagePcts
    exact traceFrom_progress 0 5 _ _ _ (by norm_num)
      (traceFrom_stageStep _ _ env.partitionOk _
        (traceFrom_progress 5 15 _ _ _ (by norm_num)
          (traceFrom_stageStep _ _ env.formatOk _
            (traceFrom_progress 15 20 _ _ _ (by norm_num)
              (traceFrom_stageStep _ _ env.mountOk _
                (traceFrom_progress 20 25 _ _ _ (by norm_num)
                  (traceFrom_stageStep _ _ env.pacstrapOk _
                    (traceFrom_progress 25 60 _ _ _ (by norm_num)
                      (traceFrom_stageStep _ _ env.fstabOk _
                        (traceFrom_progress 60 65 _ _ _ (by norm_num)
                          (traceFrom_stageStep _ _ env.configureOk _
                            (traceFrom_progress 65 85 _ _ _ (by norm_num)
                              (traceFrom_stageStep _ _ env.grubOk _ hde)))))))))))))
  exact ⟨hmain.1, hmain.2.1.tail, hmain.2.2, by decide⟩

/-! ## Free-space partitioning (`InstallWorker::partitionFreeSpace`) — claim C3

Region offsets and sizes are parsed from `parted` output as decimal
numbers into C++ `double`s; they are modelled as `ℚ`.  The selection
loop keeps `best` and replaces it only when a region is sufficient
(`sizeMb >= needMb`) and strictly larger than the current best; `best`
starts as the sentinel with all fields `-1`. -/

/-- A free region on disk: start, end and size, in megabytes. -/
structure Region where
  startMb : ℚ
  endMb : ℚ
  sizeMb : ℚ
deriving DecidableEq

/-- The error taxonomy raised by the partitioning stages. -/
inductive PartErr where
  | missingEFI
  | missingOtherOS
  | noFreeSpace
  | insufficientFreeSpace (needMb : ℚ)
  | shrinkTooSmall (shrinkTo : ℚ)
  | partitionDetectionFailed
deriving DecidableEq

/-- One iteration of the source's selection loop:
`if (r.sizeMb >= needMb && r.sizeMb > best.sizeMb) best = r;`. -/
def selStep (needMb : ℚ) (best r : Region) : Region :=
  if needMb ≤ r.sizeMb ∧ best.sizeMb < r.sizeMb then r else best

/-- The selection loop over all parsed regions, starting from the
sentinel `{-1, -1, -1}`. -/
def selectBest (regs : List Region) (needMb : ℚ) : Region :=
  regs.foldl (selStep needMb) ⟨-1, -1, -1⟩

/-- Model of the region-choosing part of `partitionFreeSpace`: empty
parse fails `noFreeSpace`; a sentinel-valued best (negative size) fails
`insufficientFreeSpace` carrying the required MB; otherwise the best
region is returned. -/
def chooseFreeRegion (regs : List Region) (needMb : ℚ) : Except PartErr Region :=
  if regs.isEmpty then .error .noFreeSpace
  else if (selectBest regs needMb).sizeMb < 0 then .error (.insufficientFreeSpace needMb)
  else .ok (selectBest regs needMb)

/-- Modelled from the claim's words, for comparison with the code's
selector: "the largest parsed free region whose size in MB is at least
the requested size, with ties among equal-size sufficient regions broken
toward the larger start offset". -/
def chooseFreeRegionClaim (regs : List Region) (needMb : ℚ) : Option Region :=
  (regs.filter (fun r => needMb ≤ r.sizeMb)).foldl
    (fun acc r =>
      match acc with
      | none => some r
      | some b =>
        if b.sizeMb < r.sizeMb ∨ (b.sizeMb = r.sizeMb ∧ b.startMb < r.startMb) then some r
        else some b)
    none

theorem selStep_size_le (needMb : ℚ) (b r : Region) :
    b.sizeMb ≤ (selStep needMb b r).sizeMb := by
  unfold selStep
  split
  · next h => exact le_of_lt h.2
  · exact le_refl _

theorem selectFold_size_mono (needMb : ℚ) :
    ∀ (l : List Region) (b : Region), b.sizeMb ≤ (l.foldl (selStep needMb) b).sizeMb := by
  intro l
  induction l with
  | nil => intro b; simp
  | cons r t ih =>
    intro b
    exact le_trans (selStep_size_le needMb b r) (ih (selStep needMb b r))

theorem selectFold_max (needMb : ℚ) :
    ∀ (l : List Region) (b s : Region), s ∈ l → needMb ≤ s.sizeMb →
      s.sizeMb ≤ (l.foldl (selStep needMb) b).sizeMb := by
  intro l
  induction l with
  | nil => intro b s hs; exact absurd hs (List.not_mem_nil s)
  | cons r t ih =>
    intro b s hs hsuff
    rcases List.mem_cons.mp hs with rfl | hs'
    · have h1 : s.sizeMb ≤ (selStep needMb b s).sizeMb := by
        unfold selStep
        split
        · exact le_refl _
        · next h =>
          push_neg at h
          exact le_of_not_lt (fun hlt => absurd (h hsuff) (not_le.mpr hlt))
      exact le_trans h1 (selectFold_size_mono needMb t _)
    · exact ih _ s hs' hsuff

/-- Either the fold never replaced the accumulator (no region beats it),
or the result is a sufficient region strictly larger than the
accumulator and no earlier region in the list is sufficient with size at
least the result's. -/
theorem selectFold_cases (needMb : ℚ) :
    ∀ (l : List Region) (b : Region),
      (l.foldl (selStep needMb) b = b ∧
        ∀ r ∈ l, ¬(needMb ≤ r.sizeMb ∧ b.sizeMb < r.sizeMb)) ∨
      (needMb ≤ (l.foldl (selStep needMb) b).sizeMb ∧
        b.sizeMb < (l.foldl (selStep needMb) b).sizeMb ∧
        ∃ pre post, l = pre ++ (l.foldl (selStep needMb) b) :: post ∧
          ∀ r ∈ pre, ¬(needMb ≤ r.sizeMb ∧ (l.foldl (selStep needMb) b).sizeMb ≤ r.sizeMb)) := by
  intro l
  induction l with
  | nil => intro b; left; exact ⟨rfl, by simp⟩
  | cons r t ih =>
    intro b
    by_cases hc : needMb ≤ r.sizeMb ∧ b.sizeMb < r.sizeMb
    · have hfold : (r :: t).foldl (selStep needMb) b = t.foldl (selStep needMb) r := by
        simp [List.foldl_cons, selStep, hc]
      rcases ih r with ⟨heq, _⟩ | ⟨hsuff, hlt, pre, post, hdec, hpre⟩
      · right
        rw [hfold, heq]
        exact ⟨hc.1, hc.2, [], t, by simp, by simp⟩
      · right
        rw [hfold]
        refine ⟨hsuff, lt_trans hc.2 hlt, r :: pre, post, congrArg (r :: ·) hdec, ?_⟩
        intro r' hr'
        rcases List.mem_cons.mp hr' with rfl | h'
        · rintro ⟨_, hge⟩
          exact absurd (lt_of_lt_of_le hlt hge) (lt_irrefl _)
        · exact hpre r' h'
    · have hfold : (r :: t).foldl (selStep needMb) b = t.foldl (selStep needMb) b := by
        simp [List.foldl_cons, selStep, hc]
      rcases ih b with ⟨heq, hnone⟩ | ⟨hsuff, hlt, pre, post, hdec, hpre⟩
      · left
        rw [hfold, heq]
        refine ⟨rfl, ?_⟩
        intro r' hr'
        rcases List.mem_cons.mp hr' with rfl | h'
        · exact hc
        · exact hnone r' h'
      · right
        rw [hfold]
        refine ⟨hsuff, hlt, r :: pre, post, congrArg (r :: ·) hdec, ?_⟩
        intro r' hr'
        rcases List.mem_cons.mp hr' with rfl | h'
        · rintro ⟨hs, hge⟩
          exact hc ⟨hs, lt_of_lt_of_le hlt hge⟩
        · exact hpre r' h'

/-- C3 counterexample: two equally-sized sufficient regions.  The code
keeps the first parsed region (start offset 0); the claim's tie-break
toward the larger start offset picks the region at offset 2000, a
different region. -/
theorem freeSpace_tiebreak_counterexample :
    chooseFreeRegion [⟨0, 1000, 1000⟩, ⟨2000, 3000, 1000⟩] 512 = .ok ⟨0, 1000, 1000⟩ ∧
    chooseFreeRegionClaim [⟨0, 1000, 1000⟩, ⟨2000, 3000, 1000⟩] 512 =
      some ⟨2000, 3000, 1000⟩ ∧
    (⟨0, 1000, 1000⟩ : Region) ≠ ⟨2000, 3000, 1000⟩ := by
  refine ⟨rfl, rfl, by decide⟩

/-- C3 amended: the chosen region is the largest parsed free region with
size at least the requested MB, with ties among equal-size sufficient
regions broken toward the earliest parsed region (the first encountered),
not the larger start offset; when no parsed region is sufficient the
stage fails `insufficientFreeSpace` reporting the required MB, as on the
regions `{0,1000,1000}` and `{1000,1100,100}` with 40960 MB requested. -/
theorem freeSpace_selection_amended (regs : List Region) (needMb : ℚ) (hpos : 0 < needMb) :
    (∀ r, chooseFreeRegion regs needMb = .ok r →
        r ∈ regs ∧ needMb ≤ r.sizeMb ∧
        (∀ s ∈ regs, needMb ≤ s.sizeMb → s.sizeMb ≤ r.sizeMb) ∧
        ∃ pre post, regs = pre ++ r :: post ∧
          ∀ s ∈ pre, ¬(needMb ≤ s.sizeMb ∧ r.sizeMb ≤ s.sizeMb)) ∧
    (chooseFreeRegion regs needMb = .error (.insufficientFreeSpace needMb) ↔
        regs ≠ [] ∧ ∀ r ∈ regs, r.sizeMb < needMb) ∧
    chooseFreeRegion [⟨0, 1000, 1000⟩, ⟨1000, 1100, 100⟩] 40960 =
      .error (.insufficientFreeSpace 40960) := by
  refine ⟨?_, ⟨?_, ?_⟩, rfl⟩
  · intro r hr
    unfold chooseFreeRegion at hr
    split at hr
    · exact absurd hr (by simp)
    · next hE =>
      split at hr
      · exact absurd hr (by simp)
      · next hneg =>
        have hreq : selectBest regs needMb = r := by
          injection hr
        rcases selectFold_cases needMb regs ⟨-1, -1, -1⟩ with ⟨heq, _⟩ | h
        · exfalso
          apply hneg
          show (selectBest regs needMb).sizeMb < 0
          unfold selectBest
          rw [heq]
          norm_num
        · rw [show regs.foldl (selStep needMb) ⟨-1, -1, -1⟩ = selectBest regs needMb from rfl,
            hreq] at h
          obtain ⟨hsuff, _, pre, post, hdec, hpre⟩ := h
          refine ⟨by rw [hdec]; simp, hsuff, ?_, pre, post, hdec, hpre⟩
          intro s hs hsuffS
          have := selectFold_max needMb regs ⟨-1, -1, -1⟩ s hs hsuffS
          rw [show regs.foldl (selStep needMb) ⟨-1, -1, -1⟩ = selectBest regs needMb from rfl,
            hreq] at this
          exact this
  · intro heq
    unfold chooseFreeRegion at heq
    split at heq
    · exact absurd heq (by simp)
    · next hE =>
      split at heq
      · next hneg =>
        refine ⟨by simpa [List.isEmpty_iff] using hE, ?_⟩
        intro r hrmem
        rcases selectFold_cases needMb regs ⟨-1, -1, -1⟩ with ⟨_, hnone⟩ | ⟨hsuff, _, _⟩
        · by_contra hge
          push_neg at hge
          exact hnone r hrmem ⟨hge, lt_of_lt_of_le (by norm_num) (le_trans (le_of_lt hpos) hge)⟩
        · exact absurd (lt_of_le_of_lt hsuff hneg) (not_lt.mpr (le_of_lt hpos))
      · exact absurd heq (by simp)
  · rintro ⟨hne, hall⟩
    have hE : regs.isEmpty = false := by
      simpa [List.isEmpty_iff] using hne
    have hneg : (selectBest regs needMb).sizeMb < 0 := by
      rcases selectFold_cases needMb regs ⟨-1, -1, -1⟩ with ⟨heq, _⟩ | ⟨hsuff, _, pre, post, hdec, _⟩
      · show (selectBest regs needMb).sizeMb < 0
        unfold selectBest
        rw [heq]
        norm_num
      · exfalso
        set res := regs.foldl (selStep needMb) (⟨-1, -1, -1⟩ : Region) with hres
        have hmem : res ∈ regs := by
          rw [hdec]
          simp
        exact absurd hsuff (not_le.mpr (hall _ hmem))
    unfold chooseFreeRegion
    rw [hE]
    simp [hneg]

/-- Witness for C3's amended theorem at the claim's own concrete failure
example. -/
theorem freeSpace_selection_amended_witness :
    chooseFreeRegion [⟨0, 1000, 1000⟩, ⟨1000, 1100, 100⟩] 40960 =
      .error (.insufficientFreeSpace 40960) :=
  (freeSpace_selection_amended [⟨0, 1000, 1000⟩, ⟨1000, 1100, 100⟩] 40960 (by norm_num)).2.2

/-! ## Dual-boot partitioning (`InstallWorker::partitionDualBoot`) — claim C4

The Windows partition size arrives as a byte count; the source computes
`winGb = bytes / 2^30` as a `double` (modelled `ℚ`), `shrinkTo = winGb -
archSizeGb`, and fails when `shrinkTo < 20`.  The later
`static_cast<qint64>` and `static_cast<int>` casts truncate toward zero;
on the success path their operands are nonnegative (`shrinkTo ≥ 20`), so
truncation coincides with the floor used here. -/

/-- The geometry the dual-boot strategy passes to the external tools:
the byte size the filesystem is shrunk to, the MB boundary the partition
table entry is resized to, and the MB start/end of the new partition. -/
structure DualBootPlan where
  shrinkBytes : ℤ
  resizeMb : ℤ
  newStartMb : ℤ
  newEndMb : ℤ
deriving DecidableEq

/-- Model of the geometry computation of `partitionDualBoot`. -/
def partitionDualBootPlan (winBytes : ℤ) (archSizeGb : ℚ) : Except PartErr DualBootPlan :=
  let winGb : ℚ := (winBytes : ℚ) / (1024 * 1024 * 1024)
  let shrinkTo : ℚ := winGb - archSizeGb
  if shrinkTo < 20 then .error (.shrinkTooSmall shrinkTo)
  else
    .ok ⟨⌊shrinkTo * 1024 * 1024 * 1024⌋, ⌊shrinkTo * 1024⌋, ⌊shrinkTo * 1024⌋,
      ⌊shrinkTo * 1024⌋ + ⌊archSizeGb * 1024⌋⟩

/-- C4 counterexample: with the other OS's partition one byte over 100
GB and 50 GB requested, the created partition starts at 51200 MB (the
truncated product), while the claim's boundary `(S - R) × 1024` MB is
the non-integer 51200 + 2⁻²⁰, so the two are not equal. -/
theorem dualBoot_boundary_counterexample :
    partitionDualBootPlan (100 * 2 ^ 30 + 1) 50 =
      .ok ⟨53687091201, 51200, 51200, 102400⟩ ∧
    (51200 : ℚ) ≠ (((100 * 2 ^ 30 + 1 : ℤ) : ℚ) / (1024 * 1024 * 1024) - 50) * 1024 := by
  constructor
  · norm_num [partitionDualBootPlan]
  · norm_num

/-- C4 amended: with the other OS's current size `S = winBytes / 2^30`
GB and requested size `R` GB, the stage fails `shrinkTooSmall` iff
`S - R < 20`; when it proceeds, the new partition's start offset is
`⌊(S - R) × 1024⌋` MB — exactly the boundary the partition-table entry
is resized to, and equal to `(S - R) × 1024` whenever that product is an
integer, as in the claim's examples `S = 100, R = 85` (fails) and
`S = 100, R = 50` (starts at 51200 MB). -/
theorem dualBoot_amended (winBytes : ℤ) (R : ℚ) :
    (partitionDualBootPlan winBytes R =
        .error (.shrinkTooSmall ((winBytes : ℚ) / (1024 * 1024 * 1024) - R)) ↔
      (winBytes : ℚ) / (1024 * 1024 * 1024) - R < 20) ∧
    (∀ p, partitionDualBootPlan winBytes R = .ok p →
      p.newStartMb = ⌊((winBytes : ℚ) / (1024 * 1024 * 1024) - R) * 1024⌋ ∧
      p.newStartMb = p.resizeMb ∧
      p.newEndMb = p.newStartMb + ⌊R * 1024⌋) ∧
    partitionDualBootPlan (100 * 2 ^ 30) 85 = .error (.shrinkTooSmall 15) ∧
    partitionDualBootPlan (100 * 2 ^ 30) 50 = .ok ⟨53687091200, 51200, 51200, 102400⟩ := by
  refine ⟨?_, ?_, ?_, ?_⟩
  · simp only [partitionDualBootPlan]
    split
    · next h => simp [h]
    · next h => simp [h]
  · intro p hp
    simp only [partitionDualBootPlan] at hp
    split at hp
    · exact absurd hp (by simp)
    · injection hp with hp
      subst hp
      exact ⟨rfl, rfl, rfl⟩
  · norm_num [partitionDualBootPlan]
  · norm_num [partitionDualBootPlan]

/-- Witness for C4's amended theorem at the claim's succeeding example. -/
theorem dualBoot_amended_witness :
    partitionDualBootPlan (100 * 2 ^ 30) 50 = .ok ⟨53687091200, 51200, 51200, 102400⟩ :=
  (dualBoot_amended (100 * 2 ^ 30) 50).2.2.2

/-! ## Device paths (`InstallWorker::partName` and the partition results) — claim C6 -/

/-- Model of `InstallWorker::partName`: NVMe/MMC-style disk names get a
`p<N>` suffix, others a bare `<N>` suffix. -/
def partName (disk : String) (num : Nat) : String :=
  if strContains disk "nvme" || strContains disk "mmcblk" then
    disk ++ "p" ++ toString num
  else disk ++ toString num

/-- The pair of device paths every partitioning strategy produces. -/
structure PartitionResult where
  efi : String
  root : String
deriving DecidableEq

/-- Model of `partitionWipe`'s result: the two derived partition names
of the freshly created GPT. -/
def partitionWipeResult (disk : String) : PartitionResult :=
  ⟨partName disk 1, partName disk 2⟩

/-- Model of `partitionFreeSpace`'s result paths: the pre-identified EFI
partition name and the trimmed last `lsblk` line, both under `/dev/`. -/
def partitionFreeSpaceResult (efiPart : Option String) (lsblkLines : List String) :
    Except PartErr PartitionResult :=
  match efiPart with
  | none => .error .missingEFI
  | some name =>
    match lsblkLines.getLast? with
    | none => .error .partitionDetectionFailed
    | some l => .ok ⟨"/dev/" ++ name, "/dev/" ++ trimChars l⟩

/-- Model of `partitionDualBoot`'s result paths, which are resolved the
same way as in the free-space strategy. -/
def partitionDualBootResult (efiPart winPart : Option String) (lsblkLines : List String) :
    Except PartErr PartitionResult :=
  match efiPart with
  | none => .error .missingEFI
  | some name =>
    match winPart with
    | none => .error .missingOtherOS
    | some _ =>
      match lsblkLines.getLast? with
      | none => .error .partitionDetectionFailed
      | some l => .ok ⟨"/dev/" ++ name, "/dev/" ++ trimChars l⟩

theorem strData_append (a b : String) : (a ++ b).data = a.data ++ b.data := rfl

theorem strAppend_cancel_left (s t u : String) (h : s ++ t = s ++ u) : t = u := by
  have hd : s.data ++ t.data = s.data ++ u.data := congrArg String.data h
  have hdata := List.append_cancel_left hd
  cases t
  cases u
  exact congrArg String.mk hdata

theorem partName_startsWith (disk : String) (n : Nat) :
    strStartsWith (partName disk n) disk = true := by
  unfold partName
  split
  · exact (isPrefixL_iff _ _).mpr
      ⟨"p".data ++ (toString n).data, by rw [strData_append, strData_append, List.append_assoc]⟩
  · exact (isPrefixL_iff _ _).mpr ⟨(toString n).data, strData_append disk (toString n)⟩

theorem partName_one_ne_two (disk : String) : partName disk 1 ≠ partName disk 2 := by
  unfold partName
  split <;>
  · intro h
    have := strAppend_cancel_left _ _ _ h
    exact absurd this (by decide)

/-- C6: each strategy's successful result has distinct EFI and root
paths, both beginning with the disk's device path (assuming, as the
external tools guarantee, that the EFI partition's name and the trimmed
last `lsblk` child both start with the disk's name and differ from each
other); and `partName` produces the claim's two concrete suffixes. -/
theorem partition_result_paths (diskName efiName lastLine : String) (lines : List String)
    (hlast : lines.getLast? = some lastLine)
    (hroot : isPrefixL diskName.data (trimChars lastLine).data = true)
    (hefi : isPrefixL diskName.data efiName.data = true)
    (hne : efiName ≠ trimChars lastLine) :
    ((partitionWipeResult ("/dev/" ++ diskName)).efi ≠
        (partitionWipeResult ("/dev/" ++ diskName)).root ∧
      strStartsWith (partitionWipeResult ("/dev/" ++ diskName)).efi ("/dev/" ++ diskName) = true ∧
      strStartsWith (partitionWipeResult ("/dev/" ++ diskName)).root
        ("/dev/" ++ diskName) = true) ∧
    (∀ pr, partitionFreeSpaceResult (some efiName) lines = .ok pr →
      pr.efi ≠ pr.root ∧
      strStartsWith pr.efi ("/dev/" ++ diskName) = true ∧
      strStartsWith pr.root ("/dev/" ++ diskName) = true) ∧
    (∀ w pr, partitionDualBootResult (some efiName) (some w) lines = .ok pr →
      pr.efi ≠ pr.root ∧
      strStartsWith pr.efi ("/dev/" ++ diskName) = true ∧
      strStartsWith pr.root ("/dev/" ++ diskName) = true) ∧
    partName "/dev/nvme0n1" 1 = "/dev/nvme0n1p1" ∧
    partName "/dev/sda" 2 = "/dev/sda2" := by
  have hpaths : ∀ pr : PartitionResult,
      pr = ⟨"/dev/" ++ efiName, "/dev/" ++ trimChars lastLine⟩ →
      pr.efi ≠ pr.root ∧
      strStartsWith pr.efi ("/dev/" ++ diskName) = true ∧
      strStartsWith pr.root ("/dev/" ++ diskName) = true := by
    rintro pr rfl
    refine ⟨fun h => hne (strAppend_cancel_left _ _ _ h), ?_, ?_⟩
    · exact isPrefixL_append_left "/dev/".data diskName.data efiName.data hefi
    · exact isPrefixL_append_left "/dev/".data diskName.data (trimChars lastLine).data hroot
  refine ⟨⟨partName_one_ne_two _, partName_startsWith _ 1, partName_startsWith _ 2⟩,
    ?_, ?_, by decide, by decide⟩
  · intro pr hpr
    simp only [partitionFreeSpaceResult, hlast] at hpr
    injection hpr with hpr
    exact hpaths pr hpr.symm
  · intro w pr hpr
    simp only [partitionDualBootResult, hlast] at hpr
    injection hpr with hpr
    exact hpaths pr hpr.symm

/-- Witness for C6 with a SATA-style disk and concrete `lsblk` output. -/
theorem partition_result_paths_witness :
    partName "/dev/nvme0n1" 1 = "/dev/nvme0n1p1" :=
  (partition_result_paths "sda" "sda1" "sda3" ["sda1", "sda3"]
    (by decide) (by decide) (by decide) (by decide)).2.2.2.1

/-! ## Package-set computation (`InstallWorker::doPacstrap`) — claim C7

The source builds `pkgs = BASE + cpuPackages + gpuPackages`, initializes
the `seen` set from `pkgs` (so `seen` always holds exactly the contents
of `pkgs`), and then appends every extra user/system package not already
seen and not in the desktop environment's package list; membership in
the accumulator therefore models `seen` exactly. -/

/-- The fixed base package list of `doPacstrap`. -/
def BASE : List String :=
  ["base", "base-devel", "linux", "linux-firmware",
   "linux-headers", "mkinitcpio", "networkmanager", "iwd",
   "sudo", "nano", "vim", "git", "curl", "wget",
   "grub", "efibootmgr", "os-prober",
   "bash-completion", "man-db", "man-pages"]

/-- The deduplicating append loop over the extra packages. -/
def addExtras (dePkgs pkgs extras : List String) : List String :=
  extras.foldl (fun acc p => if p ∈ acc ∨ p ∈ dePkgs then acc else acc ++ [p]) pkgs

/-- Model of the package list handed to `pacstrap`. -/
def computePkgs (cpu gpu user sys dePkgs : List String) : List String :=
  addExtras dePkgs (BASE ++ cpu ++ gpu) (user ++ sys)

theorem mem_addExtras (dePkgs : List String) :
    ∀ (extras acc : List String) (p : String),
      p ∈ addExtras dePkgs acc extras ↔ p ∈ acc ∨ (p ∈ extras ∧ p ∉ dePkgs) := by
  intro extras
  induction extras with
  | nil => intro acc p; simp [addExtras]
  | cons q t ih =>
    intro acc p
    by_cases hq : q ∈ acc ∨ q ∈ dePkgs
    · have hstep : addExtras dePkgs acc (q :: t) = addExtras dePkgs acc t := by
        simp [addExtras, hq]
      rw [hstep, ih acc p]
      constructor
      · rintro (h | ⟨ht, hd⟩)
        · exact Or.inl h
        · exact Or.inr ⟨List.mem_cons_of_mem q ht, hd⟩
      · rintro (h | ⟨hqt, hd⟩)
        · exact Or.inl h
        · rcases List.mem_cons.mp hqt with rfl | ht
          · rcases hq with ha | hd'
            · exact Or.inl ha
            · exact absurd hd' hd
          · exact Or.inr ⟨ht, hd⟩
    · have hstep : addExtras dePkgs acc (q :: t) = addExtras dePkgs (acc ++ [q]) t := by
        simp [addExtras, hq]
      rw [hstep, ih (acc ++ [q]) p]
      push_neg at hq
      constructor
      · rintro (h | ⟨ht, hd⟩)
        · rcases List.mem_append.mp h with h1 | h2
          · exact Or.inl h1
          · have hpq : p = q := by simpa using h2
            subst hpq
            exact Or.inr ⟨List.mem_cons_self p t, hq.2⟩
        · exact Or.inr ⟨List.mem_cons_of_mem q ht, hd⟩
      · rintro (h | ⟨hqt, hd⟩)
        · exact Or.inl (List.mem_append_left _ h)
        · rcases List.mem_cons.mp hqt with rfl | ht
          · exact Or.inl (List.mem_append_right _ (by simp))
          · exact Or.inr ⟨ht, hd⟩

/-- C7: the package set handed to `pacstrap` is, as an unordered set,
the union of the fixed base list, the CPU/GPU driver packages, and those
extra user/system packages neither already in that union nor in the
desktop environment's package list; and the set is invariant under any
reordering of the input package lists. -/
theorem pacstrap_package_set
    (cpu gpu user sys dePkgs cpu' gpu' user' sys' dePkgs' : List String)
    (h1 : cpu.Perm cpu') (h2 : gpu.Perm gpu') (h3 : user.Perm user')
    (h4 : sys.Perm sys') (h5 : dePkgs.Perm dePkgs') :
    (∀ p, p ∈ computePkgs cpu gpu user sys dePkgs ↔
      p ∈ BASE ∨ p ∈ cpu ∨ p ∈ gpu ∨
        ((p ∈ user ∨ p ∈ sys) ∧ ¬(p ∈ BASE ∨ p ∈ cpu ∨ p ∈ gpu) ∧ p ∉ dePkgs)) ∧
    (∀ p, p ∈ computePkgs cpu gpu user sys dePkgs ↔
      p ∈ computePkgs cpu' gpu' user' sys' dePkgs') := by
  have hchar : ∀ (c g u s d : List String) (p : String),
      p ∈ computePkgs c g u s d ↔
        p ∈ BASE ∨ p ∈ c ∨ p ∈ g ∨
          ((p ∈ u ∨ p ∈ s) ∧ ¬(p ∈ BASE ∨ p ∈ c ∨ p ∈ g) ∧ p ∉ d) := by
    intro c g u s d p
    unfold computePkgs
    rw [mem_addExtras]
    simp only [List.mem_append]
    tauto
  refine ⟨hchar cpu gpu user sys dePkgs, ?_⟩
  intro p
  rw [hchar, hchar]
  simp only [h1.mem_iff, h2.mem_iff, h3.mem_iff, h4.mem_iff, h5.mem_iff]

/-- Witness for C7: an extra user package outside the base and DE sets
is installed. -/
theorem pacstrap_package_set_witness :
    "htop" ∈ computePkgs ["amd-ucode"] [] ["htop"] [] [] :=
  ((pacstrap_package_set ["amd-ucode"] [] ["htop"] [] [] ["amd-ucode"] [] ["htop"] [] []
      (List.Perm.refl _) (List.Perm.refl _) (List.Perm.refl _) (List.Perm.refl _)
      (List.Perm.refl _)).1 "htop").mpr (by decide)

/-! ## Bootloader default-config rewrite (`InstallWorker::doGrub`) — claims C8, C10

The source splits the config into lines, drops every line starting with
one of the four directives, and appends a blank line and the four fixed
directive lines; the result is joined back with newlines.  Since neither
the kept lines nor the appended ones contain a newline, the rewrite is
modelled at the line-list level. -/

/-- The four directive line heads that `doGrub` strips. -/
def grubDirectiveHeads : List String :=
  ["GRUB_THEME=", "GRUB_GFXMODE=", "GRUB_GFXPAYLOAD_LINUX=", "GRUB_DISABLE_OS_PROBER="]

/-- Whether `doGrub` keeps an existing config line. -/
def keepLine (l : String) : Bool :=
  !(strStartsWith l "GRUB_THEME=" || strStartsWith l "GRUB_GFXMODE=" ||
    strStartsWith l "GRUB_GFXPAYLOAD_LINUX=" || strStartsWith l "GRUB_DISABLE_OS_PROBER=")

/-- The lines `doGrub` appends after the kept ones. -/
def grubNewLines : List String :=
  ["", "GRUB_THEME=\"/boot/grub/themes/archey/theme.txt\"", "GRUB_GFXMODE=\"auto\"",
   "GRUB_GFXPAYLOAD_LINUX=\"keep\"", "GRUB_DISABLE_OS_PROBER=false"]

/-- Model of the `doGrub` config rewrite at the line level. -/
def rewriteGrubLines (lines : List String) : List String :=
  lines.filter keepLine ++ grubNewLines

theorem countP_filter_keepLine (lines : List String) (d : String)
    (hd : d ∈ grubDirectiveHeads) :
    (lines.filter keepLine).countP (fun l => strStartsWith l d) = 0 := by
  rw [List.countP_eq_zero]
  intro l hl
  have hkeep : keepLine l = true := (List.mem_filter.mp hl).2
  simp only [keepLine, Bool.not_eq_true', Bool.or_eq_false_iff] at hkeep
  fin_cases hd <;> simp only [hkeep]
  · exact (Bool.false_ne_true <| hkeep.1.1.1 ▸ ·)
  · exact (Bool.false_ne_true <| hkeep.1.1.2 ▸ ·)
  · exact (Bool.false_ne_true <| hkeep.1.2 ▸ ·)
  · exact (Bool.false_ne_true <| hkeep.2 ▸ ·)

/-- C8: applying the config rewrite twice leaves each of the four
directive lines present exactly once — the second application rewrites
the first one's output to the same kept lines plus a second blank line
plus the same single block of four directive lines. -/
theorem grub_rewrite_idempotent (lines : List String) :
    (∀ d ∈ grubDirectiveHeads,
      (rewriteGrubLines (rewriteGrubLines lines)).countP (fun l => strStartsWith l d) = 1) ∧
    rewriteGrubLines (rewriteGrubLines lines) =
      lines.filter keepLine ++ [""] ++ grubNewLines := by
  have hfilterNew : grubNewLines.filter keepLine = [""] := by decide
  have hidem : (lines.filter keepLine).filter keepLine = lines.filter keepLine := by
    rw [List.filter_filter]
    simp
  have hsecond : rewriteGrubLines (rewriteGrubLines lines) =
      lines.filter keepLine ++ [""] ++ grubNewLines := by
    show (lines.filter keepLine ++ grubNewLines).filter keepLine ++ grubNewLines = _
    rw [List.filter_append, hfilterNew, hidem, List.append_assoc]
  refine ⟨?_, hsecond⟩
  intro d hd
  rw [hsecond, List.countP_append, List.countP_append, countP_filter_keepLine lines d hd]
  fin_cases hd <;> decide

/-- Witness for C8 on a config containing an unrelated line. -/
theorem grub_rewrite_idempotent_witness :
    (rewriteGrubLines (rewriteGrubLines ["GRUB_TIMEOUT=5"])).countP
      (fun l => strStartsWith l "GRUB_THEME=") = 1 :=
  (grub_rewrite_idempotent ["GRUB_TIMEOUT=5"]).1 "GRUB_THEME=" (by decide)

/-! ## Configure stage (`InstallWorker::doConfigure`) — claim C9

The source writes the rendered script to `/mnt/root/arch_setup.sh`
(throwing if the file cannot be opened), makes it executable, runs it
once via `arch-chroot` through `_run` with `check = true` — which throws
on failure — and only then reaches `QFile::remove`. -/

/-- File and process effects of the configure stage. -/
inductive CfgAction where
  | writeScript (path content : String)
  | makeExec (path : String)
  | chrootRun (args : List String)
  | removeFile (path : String)
deriving DecidableEq

/-- The fixed script path inside the new root, as seen from the live
environment. -/
def setupScriptPath : String := "/mnt/root/arch_setup.sh"

/-- Model of `doConfigure`'s effect trace: the performed actions in
order, and whether the stage completed without throwing.  `writeOk`
is whether the script file could be opened for writing; `chrootOk` is
whether the chroot execution of the script succeeded. -/
def doConfigureTrace (writeOk chrootOk : Bool) (script : String) : List CfgAction × Bool :=
  if writeOk then
    if chrootOk then
      ([.writeScript setupScriptPath script, .makeExec setupScriptPath,
        .chrootRun ["/mnt", "/root/arch_setup.sh"], .removeFile setupScriptPath], true)
    else
      ([.writeScript setupScriptPath script, .makeExec setupScriptPath,
        .chrootRun ["/mnt", "/root/arch_setup.sh"]], false)
  else ([], false)

/-- Whether an action is the chroot execution of the setup script. -/
def isChrootRun : CfgAction → Bool
  | .chrootRun _ => true
  | _ => false

/-- C9 counterexample: when the chroot execution of the setup script
fails, the thrown exception skips `QFile::remove`, so the script file is
not deleted — contradicting "deletes the script file afterwards
regardless of whether the chroot execution succeeded or failed". -/
theorem configure_delete_counterexample :
    CfgAction.removeFile setupScriptPath ∉ (doConfigureTrace true false "s").1 ∧
    CfgAction.chrootRun ["/mnt", "/root/arch_setup.sh"] ∈ (doConfigureTrace true false "s").1 ∧
    (doConfigureTrace true false "s").2 = false := by
  refine ⟨by decide, by decide, rfl⟩

/-- C9 amended: the configure stage writes the rendered script into the
new root, makes it executable, runs it exactly once via chroot entry,
and deletes the script afterwards only when the chroot execution
succeeded — a chroot failure propagates as an exception before the
deletion, leaving the script file behind. -/
theorem configure_script_lifecycle (writeOk chrootOk : Bool) (script : String) :
    (writeOk = true → chrootOk = true →
      doConfigureTrace writeOk chrootOk script =
        ([.writeScript setupScriptPath script, .makeExec setupScriptPath,
          .chrootRun ["/mnt", "/root/arch_setup.sh"], .removeFile setupScriptPath], true)) ∧
    (writeOk = true → chrootOk = false →
      doConfigureTrace writeOk chrootOk script =
        ([.writeScript setupScriptPath script, .makeExec setupScriptPath,
          .chrootRun ["/mnt", "/root/arch_setup.sh"]], false)) ∧
    (writeOk = true →
      (doConfigureTrace writeOk chrootOk script).1.countP isChrootRun = 1 ∧
      (doConfigureTrace writeOk chrootOk script).1.head? =
        some (.writeScript setupScriptPath script) ∧
      CfgAction.makeExec setupScriptPath ∈ (doConfigureTrace writeOk chrootOk script).1) ∧
    (CfgAction.removeFile setupScriptPath ∈ (doConfigureTrace writeOk chrootOk script).1 ↔
      writeOk = true ∧ chrootOk = true) ∧
    (writeOk = true → chrootOk = true →
      (doConfigureTrace writeOk chrootOk script).1.getLast? =
        some (.removeFile setupScriptPath)) ∧
    (writeOk = false → doConfigureTrace writeOk chrootOk script = ([], false)) := by
  cases writeOk <;> cases chrootOk <;>
    simp [doConfigureTrace, isChrootRun, List.countP_cons, setupScriptPath, List.getLast?]

/-- Witness for C9's amended theorem: a fully successful run performs
exactly write, chmod, one chroot execution, and the final removal. -/
theorem configure_script_lifecycle_witness :
    doConfigureTrace true true "x" =
      ([.writeScript setupScriptPath "x", .makeExec setupScriptPath,
        .chrootRun ["/mnt", "/root/arch_setup.sh"], .removeFile setupScriptPath], true) :=
  (configure_script_lifecycle true true "x").1 rfl rfl

/-! ## Bootloader stage trace (`InstallWorker::doGrub`) — claim C10 -/

/-- Effects of the bootloader stage. -/
inductive GrubAction where
  | cmd (prog : String) (args : List String) (check : Bool)
  | copyThemeDir (src dst : String)
  | writeCfg (content : List String)
  | logMsg (s : String)
deriving DecidableEq

/-- The `grub-install` invocation opening the stage. -/
def grubInstallCmd : GrubAction :=
  .cmd "arch-chroot" ["/mnt", "grub-install", "--target=x86_64-efi",
    "--efi-directory=/boot/efi", "--bootloader-id=Archey", "--recheck", "--removable"] true

/-- The final config-generation invocation of the stage. -/
def grubMkconfigCmd : GrubAction :=
  .cmd "arch-chroot" ["/mnt", "grub-mkconfig", "-o", "/boot/grub/grub.cfg"] true

/-- Model of `doGrub`'s effect trace: `grub-install` (throwing on
failure), the optional theme copy, the directive rewrite guarded by the
two silent file-open conditions `readOk`/`writeOk`, the best-effort
OS-prober scan in dual-boot mode, and the final checked `grub-mkconfig`.
Returns the actions performed and whether the stage completed without
throwing. -/
def doGrubTrace (mode : String) (themeExists readOk writeOk grubInstallOk : Bool)
    (cfg : List String) (mkconfigOk : Bool) : List GrubAction × Bool :=
  if grubInstallOk then
    (grubInstallCmd ::
      ((if themeExists then
          [.logMsg "Copying Archey GRUB theme...",
           .copyThemeDir "/usr/local/share/archey-grub" "/mnt/boot/grub/themes/archey"]
        else []) ++
       (if readOk then (if writeOk then [.writeCfg (rewriteGrubLines cfg)] else []) else []) ++
       (if mode = "dualboot" then [.cmd "arch-chroot" ["/mnt", "os-prober"] false] else []) ++
       [grubMkconfigCmd] ++
       (if mkconfigOk then [.logMsg "GRUB installed"] else [])),
     mkconfigOk)
  else ([grubInstallCmd], false)

/-- Whether an action is an explicit log emission. -/
def isLogAction : GrubAction → Bool
  | .logMsg _ => true
  | _ => false

/-- C10: when the bootloader default-config file cannot be opened for
reading, the rewrite is skipped without writing anything, the log output
is identical to any other read/write outcome (nothing is logged about
it), the stage still runs the final `grub-mkconfig`, and its success is
exactly that of `grub-mkconfig` — an unreadable config never by itself
fails the stage. -/
theorem grub_unreadable_cfg_skipped (mode : String) (tE wOk mkOk r' w' : Bool)
    (cfg : List String) :
    (∀ c, GrubAction.writeCfg c ∉ (doGrubTrace mode tE false wOk true cfg mkOk).1) ∧
    (doGrubTrace mode tE false wOk true cfg mkOk).1.filter isLogAction =
      (doGrubTrace mode tE r' w' true cfg mkOk).1.filter isLogAction ∧
    grubMkconfigCmd ∈ (doGrubTrace mode tE false wOk true cfg mkOk).1 ∧
    (doGrubTrace mode tE false wOk true cfg mkOk).2 = mkOk := by
  by_cases hm : mode = "dualboot" <;>
    cases tE <;> cases mkOk <;> cases r' <;> cases w' <;> cases wOk <;>
      simp [doGrubTrace, hm, isLogAction, grubInstallCmd, grubMkconfigCmd]

/-- Witness for C10: with the config unreadable, the stage completes
when `grub-mkconfig` does. -/
theorem grub_unreadable_cfg_skipped_witness :
    (doGrubTrace "wipe" false false false true ["GRUB_TIMEOUT=5"] true).2 = true :=
  (grub_unreadable_cfg_skipped "wipe" false false true true true ["GRUB_TIMEOUT=5"]).2.2.2

end Archey
